import Mathlib

/-!
# Verification of the keystroke-trainer core (src/main.go)

This file gives a shallow embedding of the core logic of the keystroke
trainer: the token scanner (`getExpectedKey`), the statistics aggregator
(`recordAttempt`, `recordMistake`, `endSession`), the match engine
(`addKey`, `finishPattern`), the session orchestrator (`startSession`,
`nextPattern`, `sessionComplete`, `stopSession`) and the pattern-file line
parsing (`parseLine`).

Modelling conventions:
* Go strings are modelled as `List Char` (`Str`), and byte positions as
  character positions (all pattern material is ASCII).
* Timestamps and durations (`time.Time`, `time.Duration`) are modelled as
  natural numbers; every operation that calls `time.Now()` in Go takes an
  explicit `now : Nat` argument.  The Go zero `time.Time` used by
  `startTime` is modelled as `Option Nat` with `none` for the zero value.
* The Go `map[string]*PatternStats` is modelled as an association list
  with `lookupPS`/`setPS`.
* Rendering (labels, colors, `Refresh`) and disk persistence (`save`) are
  I/O with no influence on the machine state and are omitted; the one
  rendering decision a claim refers to (the "NEW BEST" status text of
  `finishPattern`) is embedded as `finishShowsNewBest`.
* The `go func { time.Sleep(400ms); fyne.Do(nextPattern) }` launched by
  `finishPattern` is modelled by a counter `pendingAdvance` of launched,
  not yet fired, deferred advances; the firing of such a goroutine is the
  event `Ev.advance`.  `rand.Shuffle` is modelled by passing the shuffled
  queue as a parameter of the session-begin event.
-/

namespace Hotkey

/-- Go strings are modelled as lists of characters. -/
abbrev Str := List Char

/-- The ordered token table appearing in `getExpectedKey` (and
`formatForDisplay`) in src/main.go:
`SLC, SRC, F10, F11, F12, LC, RC, MC, F1, ..., F9`. -/
def tokens : List Str :=
  [['S','L','C'], ['S','R','C'], ['F','1','0'], ['F','1','1'], ['F','1','2'],
   ['L','C'], ['R','C'], ['M','C'],
   ['F','1'], ['F','2'], ['F','3'], ['F','4'], ['F','5'], ['F','6'],
   ['F','7'], ['F','8'], ['F','9']]

/-- The inner loop of `getExpectedKey`: the first token of the table that
is a prefix of `s` (Go: `strings.HasPrefix(pattern[pos:], token)` tried in
table order, first hit wins). -/
def findTok (s : Str) : Option Str := tokens.find? (fun t => t.isPrefixOf s)

/-- The scanning loop of `getExpectedKey` (src/main.go lines 94-117),
written relative to the remaining suffix: Go keeps an absolute cursor
`pos` and compares `pos == charPos`; here the consumed prefix is dropped
from `s` and `charPos` is decremented by the same amount instead, so the
comparison becomes `charPos = 0`.  `charPos` is an `Int` because Go's
`int` subtraction can make the relative position negative (the cursor has
overshot the requested offset), in which case the loop runs to the end
and returns `"?"`.  `fuel` bounds the iteration count; the wrapper passes
`s.length`, which is enough because every iteration consumes at least one
character. -/
def gekGo : Int → Str → Nat → Str
  | _, _, 0 => ['?']
  | charPos, s, fuel + 1 =>
    if s = [] then ['?']
    else
      match findTok s with
      | some tok =>
        if charPos = 0 then tok
        else gekGo (charPos - tok.length) (s.drop tok.length) fuel
      | none =>
        if charPos = 0 then s.take 1
        else gekGo (charPos - 1) (s.drop 1) fuel

/-- Function `getExpectedKey` of src/main.go: extracts the key token at a given
character position in a pattern, returning `"?"` when the loop exits
without hitting the position. -/
def getExpectedKey (pattern : Str) (charPos : Int) : Str :=
  gekGo charPos pattern pattern.length

/-- Specification-side tokenizer (spec section 4.1): the token sequence
that the same longest-match-first leftmost scan assigns to a pattern
string.  The source has no standalone tokenizer function; this definition
follows the spec's words and the scan shared by `getExpectedKey` and
`formatForDisplay`, and is used to state which token occupies which
offset. -/
def specTokenizeGo : Str → Nat → List Str
  | _, 0 => []
  | s, fuel + 1 =>
    if s = [] then []
    else
      match findTok s with
      | some tok => tok :: specTokenizeGo (s.drop tok.length) fuel
      | none => s.take 1 :: specTokenizeGo (s.drop 1) fuel

/-- Tokenization of a pattern string (spec-side; see `specTokenizeGo`). -/
def specTokenize (s : Str) : List Str := specTokenizeGo s s.length

/-- Specification-side offset lookup: `tokenAt toks n` is the token of
the token list `toks` that starts at flat character offset `n`, or `none`
if no token starts there (offset inside a token, or past the end). -/
def tokenAt : List Str → Nat → Option Str
  | [], _ => none
  | t :: ts, n =>
    if n = 0 then some t
    else if n < t.length then none
    else tokenAt ts (n - t.length)

/-- Record `Mistake` of src/main.go (timestamps as `Nat`). -/
structure Mistake where
  position : Nat
  expected : Str
  actual : Str
  timestamp : Nat
deriving DecidableEq

/-- Record `PatternStats` of src/main.go.  `bestTime = 0` is the Go zero
value, meaning no best time stored yet. -/
structure PatternStats where
  pattern : Str
  name : Str
  totalAttempts : Nat
  perfectCount : Nat
  totalResets : Nat
  bestTime : Nat
  totalTime : Nat
  currentStreak : Nat
  bestStreak : Nat
  lastPracticed : Nat
  mistakes : List Mistake
deriving DecidableEq

/-- Record `SessionRecord` of src/main.go. -/
structure SessionRecord where
  startTime : Nat
  endTime : Nat
  duration : Nat
  patternsTotal : Nat
  patternsPerfect : Nat
  completed : Bool
deriving DecidableEq

/-- Record `Pattern` of src/main.go: a pattern with optional friendly name. -/
structure Pattern where
  name : Str
  pattern : Str
deriving DecidableEq

/-- Record `AllStats` of src/main.go; the Go map is an association list here.
`lastUpdated` is only written by `save()` (persistence, omitted). -/
structure AllStats where
  patternStats : List (Str × PatternStats)
  sessions : List SessionRecord
  totalSessions : Nat
  totalTrainTime : Nat
  lastUpdated : Nat
deriving DecidableEq

/-- Lookup in the modelled `PatternStats` map. -/
def lookupPS : List (Str × PatternStats) → Str → Option PatternStats
  | [], _ => none
  | (k', v) :: rest, k => if k' = k then some v else lookupPS rest k

/-- Insert-or-replace in the modelled `PatternStats` map (Go map
assignment). -/
def setPS : List (Str × PatternStats) → Str → PatternStats → List (Str × PatternStats)
  | [], k, v => [(k, v)]
  | (k', v') :: rest, k, v =>
    if k' = k then (k, v) :: rest else (k', v') :: setPS rest k v

/-- The zero-valued `PatternStats` row that `getPatternStats` creates on
first use. -/
def PatternStats.init (p : Pattern) : PatternStats :=
  { pattern := p.pattern, name := p.name, totalAttempts := 0,
    perfectCount := 0, totalResets := 0, bestTime := 0, totalTime := 0,
    currentStreak := 0, bestStreak := 0, lastPracticed := 0, mistakes := [] }

/-- Method `getPatternStats` of src/main.go: fetch the row keyed by the pattern
string, creating a zero row if absent.  (Go also inserts the fresh row
into the map on the spot; in this functional model the insertion happens
at the `setPS` of the record operation that follows, with the same
observable result.) -/
def AllStats.getPatternStats (s : AllStats) (p : Pattern) : PatternStats :=
  match lookupPS s.patternStats p.pattern with
  | some ps => ps
  | none => PatternStats.init p

/-- The field updates that `recordAttempt` performs on the fetched
`PatternStats` row (Go mutates the row through the `ps` pointer; here the
updated row is built and stored back by `recordAttempt`). -/
def recordAttemptPS (ps : PatternStats) (elapsed resets now : Nat) : PatternStats :=
  let ps := { ps with totalAttempts := ps.totalAttempts + 1,
                      totalTime := ps.totalTime + elapsed,
                      totalResets := ps.totalResets + resets,
                      lastPracticed := now }
  if resets = 0 then
    let ps := { ps with perfectCount := ps.perfectCount + 1,
                        currentStreak := ps.currentStreak + 1 }
    let ps :=
      if ps.bestStreak < ps.currentStreak then
        { ps with bestStreak := ps.currentStreak }
      else ps
    if ps.bestTime = 0 ∨ elapsed < ps.bestTime then
      { ps with bestTime := elapsed }
    else ps
  else { ps with currentStreak := 0 }

/-- Method `recordAttempt` of src/main.go (lines 242-261). -/
def AllStats.recordAttempt (s : AllStats) (p : Pattern) (elapsed : Nat)
    (resets : Nat) (now : Nat) : AllStats :=
  let ps := recordAttemptPS (s.getPatternStats p) elapsed resets now
  { s with patternStats := setPS s.patternStats p.pattern ps }

/-- The field update that `recordMistake` performs on the fetched
`PatternStats` row: append the mistake, keep the most recent 100. -/
def recordMistakePS (ps : PatternStats) (position : Nat) (expected actual : Str)
    (now : Nat) : PatternStats :=
  let ms := ps.mistakes ++ [⟨position, expected, actual, now⟩]
  let ms := if 100 < ms.length then ms.drop (ms.length - 100) else ms
  { ps with mistakes := ms }

/-- Method `recordMistake` of src/main.go (lines 263-275). -/
def AllStats.recordMistake (s : AllStats) (p : Pattern) (position : Nat)
    (expected actual : Str) (now : Nat) : AllStats :=
  let ps := recordMistakePS (s.getPatternStats p) position expected actual now
  { s with patternStats := setPS s.patternStats p.pattern ps }

/-- Method `endSession` of src/main.go (lines 281-297); the trailing `save()` is
persistence I/O and is omitted. -/
def AllStats.endSession (s : AllStats) (startTime : Nat) (total perfect : Nat)
    (completed : Bool) (now : Nat) : AllStats :=
  let duration := now - startTime
  { s with
    sessions := s.sessions ++
      [{ startTime := startTime, endTime := now, duration := duration,
         patternsTotal := total, patternsPerfect := perfect,
         completed := completed }],
    totalSessions := s.totalSessions + 1,
    totalTrainTime := s.totalTrainTime + duration }

/-- Perfect-completion count stored for a pattern key (0 if no row). -/
def pcKey (s : AllStats) (k : Str) : Nat :=
  match lookupPS s.patternStats k with
  | some ps => ps.perfectCount
  | none => 0

/-- Best time stored for a pattern key (0 = none stored). -/
def bestKey (s : AllStats) (k : Str) : Nat :=
  match lookupPS s.patternStats k with
  | some ps => ps.bestTime
  | none => 0

/-- Current streak stored for a pattern key. -/
def csKey (s : AllStats) (k : Str) : Nat :=
  match lookupPS s.patternStats k with
  | some ps => ps.currentStreak
  | none => 0

/-- Best streak stored for a pattern key. -/
def bsKey (s : AllStats) (k : Str) : Nat :=
  match lookupPS s.patternStats k with
  | some ps => ps.bestStreak
  | none => 0

/-- Mistake list stored for a pattern key. -/
def mistakesKey (s : AllStats) (k : Str) : List Mistake :=
  match lookupPS s.patternStats k with
  | some ps => ps.mistakes
  | none => []

/-- The application state of src/main.go (`App`), restricted to the
fields that carry machine state.  The UI widget fields are omitted.
`pendingAdvance` counts deferred-advance goroutines that `finishPattern`
has launched and that have not fired yet (there is no such field in the
Go struct; it models the set of live `go func` timers). -/
structure App where
  allPatterns : List Pattern
  patternQueue : List Pattern
  currentIndex : Nat
  currentPattern : Pattern
  inputBuffer : List Str
  isActive : Bool
  inSession : Bool
  startTime : Option Nat
  resetCount : Nat
  sessionPerfect : Nat
  sessionTotal : Nat
  sessionStart : Nat
  pendingAdvance : Nat
  stats : AllStats
deriving DecidableEq

/-- Go `strings.Join(buf, "")`: flat string of a token buffer. -/
def flat (buf : List Str) : Str := buf.flatten

/-- The `recordAttempt`-and-queue part of `finishPattern` (src/main.go lines
780-824).  The status-label rendering is omitted (its "NEW BEST" decision
is embedded separately as `finishShowsNewBest`); the launched deferred
`nextPattern` goroutine is modelled by `pendingAdvance + 1`. -/
def finishPattern (a : App) (now : Nat) : App :=
  if a.isActive = false then a
  else
    let elapsed := now - a.startTime.getD 0
    let stats1 := a.stats.recordAttempt a.currentPattern elapsed a.resetCount now
    if a.resetCount = 0 then
      { a with isActive := false,
               sessionTotal := a.sessionTotal + 1,
               stats := stats1,
               sessionPerfect := a.sessionPerfect + 1,
               pendingAdvance := a.pendingAdvance + 1 }
    else
      { a with isActive := false,
               sessionTotal := a.sessionTotal + 1,
               stats := stats1,
               patternQueue := a.patternQueue ++ [a.currentPattern],
               pendingAdvance := a.pendingAdvance + 1 }

/-- The "NEW BEST" decision of `finishPattern` (src/main.go lines
794-805): after `recordAttempt` has run, the just-elapsed time is
compared for exact equality against the stored best time.  Defined for
arbitrary `resets` but only reached with `resets = 0` in the source. -/
def finishShowsNewBest (s : AllStats) (p : Pattern) (elapsed resets now : Nat) : Bool :=
  let s1 := s.recordAttempt p elapsed resets now
  match lookupPS s1.patternStats p.pattern with
  | some ps => elapsed = ps.bestTime
  | none => false

/-- Method `addKey` of src/main.go (lines 724-766). -/
def addKey (a : App) (key : Str) (now : Nat) : App :=
  if a.isActive = false then a
  else
    let testInput := flat (a.inputBuffer ++ [key])
    if ¬ testInput <+: a.currentPattern.pattern then
      if a.inputBuffer = [] then a
      else
        let position := testInput.length - key.length
        let expected := getExpectedKey a.currentPattern.pattern position
        { a with stats := a.stats.recordMistake a.currentPattern position expected key now,
                 resetCount := a.resetCount + 1,
                 inputBuffer := [] }
    else
      let a2 := { a with startTime := if a.startTime = none then some now
                                      else a.startTime,
                         inputBuffer := a.inputBuffer ++ [key] }
      if a2.currentPattern.pattern.length ≤ (flat a2.inputBuffer).length then
        finishPattern a2 now
      else a2

/-- Method `sessionComplete` of src/main.go (lines 642-672): ends the session
with `completed = true` (display-only updates omitted). -/
def sessionComplete (a : App) (now : Nat) : App :=
  { a with inSession := false, isActive := false,
           stats := a.stats.endSession a.sessionStart a.sessionTotal a.sessionPerfect true now }

/-- Method `stopSession` of src/main.go (lines 612-640): ends the session with
`completed = false`. -/
def stopSession (a : App) (now : Nat) : App :=
  { a with inSession := false, isActive := false,
           stats := a.stats.endSession a.sessionStart a.sessionTotal a.sessionPerfect false now }

/-- Method `nextPattern` of src/main.go (lines 674-722): drain the queue head
into the active slot, or complete the session on an empty queue. -/
def nextPattern (a : App) (now : Nat) : App :=
  if a.inSession = false then a
  else
    match a.patternQueue with
    | [] => sessionComplete a now
    | p :: rest =>
      { a with currentPattern := p, patternQueue := rest, inputBuffer := [],
               resetCount := 0, isActive := true, startTime := none }

/-- Method `startSession` of src/main.go (lines 597-610).  `rand.Shuffle` of
`allPatterns` is modelled by receiving the shuffled queue `perm` as a
parameter; claims that depend on the shuffle being a permutation take
`perm.Perm a.allPatterns` as a hypothesis. -/
def startSession (a : App) (perm : List Pattern) (now : Nat) : App :=
  let a1 := { a with patternQueue := perm, currentIndex := 0, inSession := true,
                     sessionPerfect := 0, sessionTotal := 0, sessionStart := now }
  nextPattern a1 now

/-- The serialized input events of the interaction loop (all handlers run
on the single fyne UI thread):
* `key k t`: a token-producing input (`TypedRune`, a mapped `TypedKey`,
  or a `MouseDown` variant) at time `t`;
* `advance t`: a deferred-advance goroutine launched by `finishPattern`
  fires (`fyne.Do(nextPattern)` guarded by `inSession`);
* `stop t`: ESC while in a session;
* `begin perm t`: Space/Enter outside a session, starting a session whose
  shuffled queue is `perm`. -/
inductive Ev where
  | key (k : Str) (t : Nat)
  | advance (t : Nat)
  | stop (t : Nat)
  | begin (perm : List Pattern) (t : Nat)
deriving DecidableEq

/-- One serialized event step, following the guards of `TypedKey`,
`TypedRune`, `MouseDown` and the goroutine body of `finishPattern`. -/
def step (a : App) (e : Ev) : App :=
  match e with
  | .key k t => addKey a k t
  | .advance t =>
    if 0 < a.pendingAdvance then
      let a1 := { a with pendingAdvance := a.pendingAdvance - 1 }
      if a1.inSession = true then nextPattern a1 t else a1
    else a
  | .stop t => if a.inSession = true then stopSession a t else a
  | .begin perm t => if a.inSession = true then a else startSession a perm t

/-- Run a list of events. -/
def run (a : App) (evs : List Ev) : App := evs.foldl step a

/-- ASCII whitespace (the pattern-file material is ASCII; Go's
`strings.TrimSpace` trims Unicode space, which coincides on it). -/
def isSpaceCh (c : Char) : Bool := c = ' ' ∨ c = '\t' ∨ c = '\n' ∨ c = '\r'

/-- Drop leading whitespace. -/
def trimLeft : Str → Str
  | [] => []
  | c :: r => if isSpaceCh c then trimLeft r else c :: r

/-- Go `strings.TrimSpace` on a line. -/
def trimSpace (s : Str) : Str := (trimLeft (trimLeft s.reverse).reverse)

/-- Go `strings.SplitN(line, "|", 2)`: `some (before, after)` split at the
first `|`, or `none` when the line has no `|`. -/
def splitBar : Str → Option (Str × Str)
  | [] => none
  | c :: r =>
    if c = '|' then some ([], r)
    else
      match splitBar r with
      | some (bef, aft) => some (c :: bef, aft)
      | none => none

/-- One iteration of the scanner loop of `loadPatternsFromFile`
(src/main.go lines 147-157): trim, skip blank and comment lines, split
`Name|TokenString`, else use the whole line as both. -/
def parseLine (raw : Str) : Option Pattern :=
  let line := trimSpace raw
  if line = [] then none
  else if line.head? = some '#' then none
  else
    match splitBar line with
    | some (n, p) => some ⟨n, p⟩
    | none => some ⟨line, line⟩

/-- Function `loadPatternsFromFile` on an already-split list of lines. -/
def parseLines (ls : List Str) : List Pattern := ls.filterMap parseLine

/-- The fresh statistics aggregate (`loadStats` with no stored file). -/
def emptyStats : AllStats :=
  { patternStats := [], sessions := [], totalSessions := 0,
    totalTrainTime := 0, lastUpdated := 0 }

/-- The application state right after startup (`main` + `setupUI`), with
the given loaded pattern list and fresh statistics. -/
def mkApp (ps : List Pattern) : App :=
  { allPatterns := ps, patternQueue := [], currentIndex := 0,
    currentPattern := ⟨[], []⟩, inputBuffer := [], isActive := false,
    inSession := false, startTime := none, resetCount := 0,
    sessionPerfect := 0, sessionTotal := 0, sessionStart := 0,
    pendingAdvance := 0, stats := emptyStats }

/-- Fold `recordAttempt` over a list of `(elapsed, resets, now)` attempt
records of one pattern. -/
def applyAttempts (s : AllStats) (p : Pattern) (l : List (Nat × Nat × Nat)) : AllStats :=
  l.foldl (fun st x => st.recordAttempt p x.1 x.2.1 x.2.2) s

/-- The character-level buffer invariant that the match engine actually
maintains: while a pattern is active, the flat string of the typed-so-far
buffer is a prefix of the pattern string, and a proper one as long as the
pattern string is nonempty. -/
def Inv1 (s : App) : Prop :=
  s.isActive = true →
    flat s.inputBuffer <+: s.currentPattern.pattern ∧
    (s.currentPattern.pattern ≠ [] → flat s.inputBuffer ≠ s.currentPattern.pattern)

/-- Events that keep an empty-pattern state frozen: nonempty input tokens
(every token the input surface produces is a nonempty string) and firings
of deferred advances. -/
def benignEv : Ev → Bool
  | .key k _ => !k.isEmpty
  | .advance _ => true
  | .stop _ => false
  | .begin _ _ => false

/-- In-session events: token inputs and deferred-advance firings. -/
def quietEv : Ev → Bool
  | .key _ _ => true
  | .advance _ => true
  | .stop _ => false
  | .begin _ _ => false

/-- Session invariant for the completion claim, relative to the statistics
baseline `B` taken at session start and the loaded pattern list `A`:
every loaded pattern is still waiting in the queue, or is the active
pattern, or has had a zero-reset completion since the baseline (its
stored perfect count grew).  The bookkeeping conjuncts say that perfect
counts never fall below the baseline, that no deferred advance is pending
while a pattern is active, and that at most one advance is ever pending. -/
def C4Inv (B : AllStats) (A : List Pattern) (s : App) : Prop :=
  s.allPatterns = A ∧
  (∀ k, pcKey B k ≤ pcKey s.stats k) ∧
  (s.isActive = true → s.pendingAdvance = 0 ∧ s.inSession = true) ∧
  s.pendingAdvance ≤ 1 ∧
  (s.inSession = true →
    ∀ p ∈ A, p ∈ s.patternQueue ∨ (s.isActive = true ∧ p = s.currentPattern) ∨
      pcKey B p.pattern < pcKey s.stats p.pattern) ∧
  (s.inSession = false → ∀ p ∈ A, pcKey B p.pattern < pcKey s.stats p.pattern)

/-- The pattern `t|1aLC` of the reset-correctness scenario. -/
def P14 : Pattern := ⟨['t'], ['1','a','L','C']⟩

/-- A mid-session state with `1aLC` active and nothing typed yet. -/
def s0c2 : App :=
  { mkApp [P14] with currentPattern := P14, isActive := true, inSession := true }

/-- The scenario state after submitting `1`, `a`, `RC`. -/
def s3c2 : App := run s0c2 [Ev.key ['1'] 6, Ev.key ['a'] 7, Ev.key ['R','C'] 8]

/-- A one-token pattern `p|b`. -/
def PB : Pattern := ⟨['p'], ['b']⟩

/-- A one-token pattern `q|c`. -/
def PQ : Pattern := ⟨['q'], ['c']⟩

/-- Startup state loaded with the two patterns `PB` and `PQ`. -/
def s0c4 : App := mkApp [PB, PQ]

/-- A run exhibiting a stale deferred advance: finish `PB` perfectly,
stop the session during the 400ms advance delay, start a new session
with queue `[PQ, PB]`, let the stale advance fire (skipping `PQ`),
finish `PB` again and let the session complete. -/
def fc4 : App := run s0c4
  [Ev.begin [PB, PQ] 0, Ev.key ['b'] 1, Ev.stop 2, Ev.begin [PQ, PB] 3,
   Ev.advance 4, Ev.key ['b'] 5, Ev.advance 6]

/-- Reachable state with pattern `SLC` active after the single character
`S` has been typed and accepted. -/
def sSLC : App :=
  run (mkApp [⟨['n'], ['S','L','C']⟩]) [Ev.begin [⟨['n'], ['S','L','C']⟩] 0, Ev.key ['S'] 1]

/-- Reachable state with an empty-string pattern active. -/
def sEmptyPat : App := run (mkApp [⟨['n'], []⟩]) [Ev.begin [⟨['n'], []⟩] 0]

/-- A pattern with the empty token string (from a pattern-file line of
the form `n|`). -/
def PE : Pattern := ⟨['n'], []⟩

/-- A run leaving the empty pattern `PE` active with a stale deferred
advance still pending: finish `PB` perfectly, stop the session during the
advance delay (the timer stays alive), start a new session, finish `PB`
again (a second timer), and let one timer fire, loading `PE` with the
other timer still pending. -/
def sMid : App := run (mkApp [PB, PE])
  [Ev.begin [PB, PE] 0, Ev.key ['b'] 1, Ev.stop 2, Ev.begin [PB, PE] 3,
   Ev.key ['b'] 4, Ev.advance 5]

/-! Section: Association-list map lemmas -/

theorem lookup_setPS_self (l : List (Str × PatternStats)) (k : Str) (v : PatternStats) :
    lookupPS (setPS l k v) k = some v := by
  induction l with
  | nil => simp [setPS, lookupPS]
  | cons hd tl ih =>
    obtain ⟨k', v'⟩ := hd
    by_cases h : k' = k
    · simp [setPS, h, lookupPS]
    · simp [setPS, h, lookupPS, ih]

theorem lookup_setPS_ne (l : List (Str × PatternStats)) (k k' : Str) (v : PatternStats)
    (h : k' ≠ k) : lookupPS (setPS l k v) k' = lookupPS l k' := by
  induction l with
  | nil =>
    simp only [setPS, lookupPS]
    exact if_neg (fun hh => h hh.symm)
  | cons hd tl ih =>
    obtain ⟨k0, v0⟩ := hd
    by_cases h0 : k0 = k
    · subst h0
      simp only [setPS, if_pos rfl, lookupPS]
      rw [if_neg (fun hh => h hh.symm), if_neg (fun hh => h hh.symm)]
    · simp only [setPS, if_neg h0, lookupPS]
      by_cases h1 : k0 = k'
      · simp [h1]
      · simp [h1, ih]

/-! Section: `getPatternStats` field lemmas -/

theorem getPS_perfectCount (s : AllStats) (p : Pattern) :
    (s.getPatternStats p).perfectCount = pcKey s p.pattern := by
  unfold AllStats.getPatternStats pcKey
  cases lookupPS s.patternStats p.pattern <;> simp [PatternStats.init]

theorem getPS_bestTime (s : AllStats) (p : Pattern) :
    (s.getPatternStats p).bestTime = bestKey s p.pattern := by
  unfold AllStats.getPatternStats bestKey
  cases lookupPS s.patternStats p.pattern <;> simp [PatternStats.init]

theorem getPS_currentStreak (s : AllStats) (p : Pattern) :
    (s.getPatternStats p).currentStreak = csKey s p.pattern := by
  unfold AllStats.getPatternStats csKey
  cases lookupPS s.patternStats p.pattern <;> simp [PatternStats.init]

theorem getPS_bestStreak (s : AllStats) (p : Pattern) :
    (s.getPatternStats p).bestStreak = bsKey s p.pattern := by
  unfold AllStats.getPatternStats bsKey
  cases lookupPS s.patternStats p.pattern <;> simp [PatternStats.init]

theorem getPS_mistakes (s : AllStats) (p : Pattern) :
    (s.getPatternStats p).mistakes = mistakesKey s p.pattern := by
  unfold AllStats.getPatternStats mistakesKey
  cases lookupPS s.patternStats p.pattern <;> simp [PatternStats.init]

/-! Section: Per-row `recordAttempt` field lemmas -/

theorem recordAttemptPS_perfectCount (ps : PatternStats) (e r t : Nat) :
    (recordAttemptPS ps e r t).perfectCount =
      if r = 0 then ps.perfectCount + 1 else ps.perfectCount := by
  simp only [recordAttemptPS]
  split_ifs <;> rfl

theorem recordAttemptPS_bestTime (ps : PatternStats) (e r t : Nat) :
    (recordAttemptPS ps e r t).bestTime =
      if r = 0 ∧ (ps.bestTime = 0 ∨ e < ps.bestTime) then e else ps.bestTime := by
  simp only [recordAttemptPS]
  split_ifs <;> simp_all

theorem recordAttemptPS_currentStreak (ps : PatternStats) (e r t : Nat) :
    (recordAttemptPS ps e r t).currentStreak =
      if r = 0 then ps.currentStreak + 1 else 0 := by
  simp only [recordAttemptPS]
  split_ifs <;> rfl

theorem recordAttemptPS_bestStreak (ps : PatternStats) (e r t : Nat) :
    (recordAttemptPS ps e r t).bestStreak =
      if r = 0 then max ps.bestStreak (ps.currentStreak + 1) else ps.bestStreak := by
  simp only [recordAttemptPS]
  split_ifs <;> simp_all <;> omega

/-! Section: `recordAttempt` characterizations on stored keys -/

theorem pcKey_recordAttempt (s : AllStats) (p : Pattern) (e r t : Nat) :
    pcKey (s.recordAttempt p e r t) p.pattern =
      if r = 0 then pcKey s p.pattern + 1 else pcKey s p.pattern := by
  simp only [AllStats.recordAttempt, pcKey, lookup_setPS_self]
  rw [recordAttemptPS_perfectCount, getPS_perfectCount]
  rfl

theorem bestKey_recordAttempt (s : AllStats) (p : Pattern) (e r t : Nat) :
    bestKey (s.recordAttempt p e r t) p.pattern =
      if r = 0 ∧ (bestKey s p.pattern = 0 ∨ e < bestKey s p.pattern) then e
      else bestKey s p.pattern := by
  simp only [AllStats.recordAttempt, bestKey, lookup_setPS_self]
  rw [recordAttemptPS_bestTime, getPS_bestTime]
  rfl

theorem csKey_recordAttempt (s : AllStats) (p : Pattern) (e r t : Nat) :
    csKey (s.recordAttempt p e r t) p.pattern =
      if r = 0 then csKey s p.pattern + 1 else 0 := by
  simp only [AllStats.recordAttempt, csKey, lookup_setPS_self]
  rw [recordAttemptPS_currentStreak, getPS_currentStreak]
  rfl

theorem bsKey_recordAttempt (s : AllStats) (p : Pattern) (e r t : Nat) :
    bsKey (s.recordAttempt p e r t) p.pattern =
      if r = 0 then max (bsKey s p.pattern) (csKey s p.pattern + 1)
      else bsKey s p.pattern := by
  simp only [AllStats.recordAttempt, bsKey, lookup_setPS_self]
  rw [recordAttemptPS_bestStreak, getPS_bestStreak, getPS_currentStreak]
  rfl

theorem pcKey_recordAttempt_ne (s : AllStats) (p : Pattern) (e r t : Nat) (k : Str)
    (hk : k ≠ p.pattern) : pcKey (s.recordAttempt p e r t) k = pcKey s k := by
  unfold AllStats.recordAttempt pcKey
  rw [lookup_setPS_ne _ _ _ _ hk]

theorem pcKey_recordAttempt_le (s : AllStats) (p : Pattern) (e r t : Nat) (k : Str) :
    pcKey s k ≤ pcKey (s.recordAttempt p e r t) k := by
  by_cases hk : k = p.pattern
  · subst hk
    rw [pcKey_recordAttempt]
    split_ifs <;> omega
  · rw [pcKey_recordAttempt_ne _ _ _ _ _ _ hk]

/-! Section: `recordMistake` and `endSession` lemmas -/

theorem pcKey_recordMistake (s : AllStats) (p : Pattern) (pos : Nat) (e a : Str) (t : Nat)
    (k : Str) : pcKey (s.recordMistake p pos e a t) k = pcKey s k := by
  by_cases hk : k = p.pattern
  · subst hk
    simp only [AllStats.recordMistake, pcKey, lookup_setPS_self]
    have hmk : (recordMistakePS (s.getPatternStats p) pos e a t).perfectCount =
        (s.getPatternStats p).perfectCount := rfl
    rw [hmk, getPS_perfectCount]
    rfl
  · unfold AllStats.recordMistake pcKey
    rw [lookup_setPS_ne _ _ _ _ hk]

theorem recordMistakePS_mistakes (ps : PatternStats) (pos : Nat) (e a : Str) (t : Nat) :
    ∃ pre, (recordMistakePS ps pos e a t).mistakes = pre ++ [⟨pos, e, a, t⟩] := by
  simp only [recordMistakePS]
  by_cases hlen : 100 < (ps.mistakes ++ [(⟨pos, e, a, t⟩ : Mistake)]).length
  · have hle : (ps.mistakes ++ [(⟨pos, e, a, t⟩ : Mistake)]).length - 100 ≤
        ps.mistakes.length := by
      simp only [List.length_append, List.length_cons, List.length_nil]
      omega
    refine ⟨ps.mistakes.drop
      ((ps.mistakes ++ [(⟨pos, e, a, t⟩ : Mistake)]).length - 100), ?_⟩
    rw [if_pos hlen, List.drop_append_of_le_length hle]
  · exact ⟨ps.mistakes, by rw [if_neg hlen]⟩

theorem mistakesKey_recordMistake (s : AllStats) (p : Pattern) (pos : Nat) (e a : Str)
    (t : Nat) :
    ∃ pre, mistakesKey (s.recordMistake p pos e a t) p.pattern =
      pre ++ [⟨pos, e, a, t⟩] := by
  obtain ⟨pre, hpre⟩ := recordMistakePS_mistakes (s.getPatternStats p) pos e a t
  refine ⟨pre, ?_⟩
  simp only [AllStats.recordMistake, mistakesKey, lookup_setPS_self]
  exact hpre

theorem patternStats_endSession (s : AllStats) (st total perfect : Nat) (c : Bool)
    (t : Nat) : (s.endSession st total perfect c t).patternStats = s.patternStats := rfl

theorem pcKey_endSession (s : AllStats) (st total perfect : Nat) (c : Bool) (t : Nat)
    (k : Str) : pcKey (s.endSession st total perfect c t) k = pcKey s k := rfl

/-! Section: Token-scan lemmas -/

theorem tokens_pos : ∀ t ∈ tokens, 0 < t.length := by decide

theorem findTok_mem {s t : Str} (h : findTok s = some t) : t ∈ tokens := by
  unfold findTok at h
  exact List.mem_of_find?_eq_some h

theorem findTok_pos {s t : Str} (h : findTok s = some t) : 0 < t.length :=
  tokens_pos t (findTok_mem h)

theorem findTok_isPre {s t : Str} (h : findTok s = some t) : t <+: s := by
  unfold findTok at h
  have h' := List.find?_some h
  exact List.isPrefixOf_iff_prefix.mp (by simpa using h')

theorem gekGo_succ_some {s tok : Str} (hs : s ≠ []) (hft : findTok s = some tok)
    (cp : Int) (f : Nat) :
    gekGo cp s (f + 1) =
      if cp = 0 then tok else gekGo (cp - tok.length) (s.drop tok.length) f := by
  simp only [gekGo, if_neg hs, hft]

theorem gekGo_succ_none {s : Str} (hs : s ≠ []) (hft : findTok s = none)
    (cp : Int) (f : Nat) :
    gekGo cp s (f + 1) =
      if cp = 0 then s.take 1 else gekGo (cp - 1) (s.drop 1) f := by
  simp only [gekGo, if_neg hs, hft]

theorem spectokGo_succ_some {s tok : Str} (hs : s ≠ []) (hft : findTok s = some tok)
    (f : Nat) :
    specTokenizeGo s (f + 1) = tok :: specTokenizeGo (s.drop tok.length) f := by
  simp only [specTokenizeGo, if_neg hs, hft]

theorem spectokGo_succ_none {s : Str} (hs : s ≠ []) (hft : findTok s = none) (f : Nat) :
    specTokenizeGo s (f + 1) = s.take 1 :: specTokenizeGo (s.drop 1) f := by
  simp only [specTokenizeGo, if_neg hs, hft]

theorem gekGo_fuel : ∀ (f1 f2 : Nat) (cp : Int) (s : Str),
    s.length ≤ f1 → s.length ≤ f2 → gekGo cp s f1 = gekGo cp s f2 := by
  intro f1
  induction f1 with
  | zero =>
    intro f2 cp s h1 _
    have hs : s = [] := List.eq_nil_of_length_eq_zero (Nat.le_zero.mp h1)
    subst hs
    cases f2 <;> simp [gekGo]
  | succ n ih =>
    intro f2 cp s h1 h2
    cases f2 with
    | zero =>
      have hs : s = [] := List.eq_nil_of_length_eq_zero (Nat.le_zero.mp h2)
      subst hs
      simp [gekGo]
    | succ m =>
      by_cases hs : s = []
      · subst hs; simp [gekGo]
      · have hlen : 0 < s.length := List.length_pos.mpr hs
        cases hft : findTok s with
        | some tok =>
          have htok := findTok_pos hft
          have hdrop : (s.drop tok.length).length = s.length - tok.length :=
            List.length_drop _ _
          rw [gekGo_succ_some hs hft, gekGo_succ_some hs hft]
          by_cases hcp : cp = 0
          · simp [hcp]
          · rw [if_neg hcp, if_neg hcp]
            exact ih m _ _ (by omega) (by omega)
        | none =>
          have hdrop : (s.drop 1).length = s.length - 1 := List.length_drop _ _
          rw [gekGo_succ_none hs hft, gekGo_succ_none hs hft]
          by_cases hcp : cp = 0
          · simp [hcp]
          · rw [if_neg hcp, if_neg hcp]
            exact ih m _ _ (by omega) (by omega)

theorem gekGo_neg : ∀ (f : Nat) (cp : Int) (s : Str), cp < 0 → gekGo cp s f = ['?'] := by
  intro f
  induction f with
  | zero => intro cp s _; simp [gekGo]
  | succ n ih =>
    intro cp s hcp
    by_cases hs : s = []
    · simp [gekGo, hs]
    · have hcp0 : ¬ cp = 0 := by omega
      cases hft : findTok s with
      | some tok =>
        rw [gekGo_succ_some hs hft, if_neg hcp0]
        exact ih _ _ (by omega)
      | none =>
        rw [gekGo_succ_none hs hft, if_neg hcp0]
        exact ih _ _ (by omega)

theorem gek_eq_some {s tok : Str} (hs : s ≠ []) (hft : findTok s = some tok) (cp : Int) :
    getExpectedKey s cp =
      if cp = 0 then tok
      else getExpectedKey (s.drop tok.length) (cp - tok.length) := by
  have hlen : 0 < s.length := List.length_pos.mpr hs
  have htok := findTok_pos hft
  have hdrop : (s.drop tok.length).length = s.length - tok.length := List.length_drop _ _
  unfold getExpectedKey
  rw [show s.length = (s.length - 1) + 1 by omega, gekGo_succ_some hs hft]
  by_cases hcp : cp = 0
  · simp [hcp]
  · rw [if_neg hcp, if_neg hcp]
    exact gekGo_fuel _ _ _ _ (by omega) (by omega)

theorem gek_eq_none {s : Str} (hs : s ≠ []) (hft : findTok s = none) (cp : Int) :
    getExpectedKey s cp =
      if cp = 0 then s.take 1 else getExpectedKey (s.drop 1) (cp - 1) := by
  have hlen : 0 < s.length := List.length_pos.mpr hs
  have hdrop : (s.drop 1).length = s.length - 1 := List.length_drop _ _
  unfold getExpectedKey
  rw [show s.length = (s.length - 1) + 1 by omega, gekGo_succ_none hs hft]
  by_cases hcp : cp = 0
  · simp [hcp]
  · rw [if_neg hcp, if_neg hcp]
    exact gekGo_fuel _ _ _ _ (by omega) (by omega)

theorem spectokGo_fuel : ∀ (f1 f2 : Nat) (s : Str),
    s.length ≤ f1 → s.length ≤ f2 → specTokenizeGo s f1 = specTokenizeGo s f2 := by
  intro f1
  induction f1 with
  | zero =>
    intro f2 s h1 _
    have hs : s = [] := List.eq_nil_of_length_eq_zero (Nat.le_zero.mp h1)
    subst hs
    cases f2 <;> simp [specTokenizeGo]
  | succ n ih =>
    intro f2 s h1 h2
    cases f2 with
    | zero =>
      have hs : s = [] := List.eq_nil_of_length_eq_zero (Nat.le_zero.mp h2)
      subst hs
      simp [specTokenizeGo]
    | succ m =>
      by_cases hs : s = []
      · subst hs; simp [specTokenizeGo]
      · have hlen : 0 < s.length := List.length_pos.mpr hs
        cases hft : findTok s with
        | some tok =>
          have htok := findTok_pos hft
          have hdrop : (s.drop tok.length).length = s.length - tok.length :=
            List.length_drop _ _
          rw [spectokGo_succ_some hs hft, spectokGo_succ_some hs hft,
            ih m (s.drop tok.length) (by omega) (by omega)]
        | none =>
          have hdrop : (s.drop 1).length = s.length - 1 := List.length_drop _ _
          rw [spectokGo_succ_none hs hft, spectokGo_succ_none hs hft,
            ih m (s.drop 1) (by omega) (by omega)]

theorem spectok_eq_some {s tok : Str} (hs : s ≠ []) (hft : findTok s = some tok) :
    specTokenize s = tok :: specTokenize (s.drop tok.length) := by
  have hlen : 0 < s.length := List.length_pos.mpr hs
  have htok := findTok_pos hft
  have hdrop : (s.drop tok.length).length = s.length - tok.length := List.length_drop _ _
  unfold specTokenize
  rw [show s.length = (s.length - 1) + 1 by omega, spectokGo_succ_some hs hft,
    spectokGo_fuel (s.length - 1) (s.drop tok.length).length (s.drop tok.length)
      (by omega) (by omega)]

theorem spectok_eq_none {s : Str} (hs : s ≠ []) (hft : findTok s = none) :
    specTokenize s = s.take 1 :: specTokenize (s.drop 1) := by
  have hlen : 0 < s.length := List.length_pos.mpr hs
  have hdrop : (s.drop 1).length = s.length - 1 := List.length_drop _ _
  unfold specTokenize
  rw [show s.length = (s.length - 1) + 1 by omega, spectokGo_succ_none hs hft,
    spectokGo_fuel (s.length - 1) (s.drop 1).length (s.drop 1) (by omega) (by omega)]

theorem gek_tokenAt_aux : ∀ (L : Nat) (s : Str), s.length ≤ L → ∀ (n : Nat),
    getExpectedKey s n = (tokenAt (specTokenize s) n).getD ['?'] := by
  intro L
  induction L with
  | zero =>
    intro s hs n
    have h0 : s = [] := List.eq_nil_of_length_eq_zero (Nat.le_zero.mp hs)
    subst h0
    simp [getExpectedKey, gekGo, specTokenize, specTokenizeGo, tokenAt]
  | succ m ih =>
    intro s hs n
    by_cases h0 : s = []
    · subst h0
      simp [getExpectedKey, gekGo, specTokenize, specTokenizeGo, tokenAt]
    · have hlen : 0 < s.length := List.length_pos.mpr h0
      cases hft : findTok s with
      | some tok =>
        have htok := findTok_pos hft
        have hdrop : (s.drop tok.length).length = s.length - tok.length :=
          List.length_drop _ _
        rw [gek_eq_some h0 hft, spectok_eq_some h0 hft]
        by_cases hn : n = 0
        · subst hn
          simp [tokenAt]
        · rw [if_neg (by exact_mod_cast hn)]
          simp only [tokenAt, if_neg hn]
          by_cases hlt : n < tok.length
          · rw [if_pos hlt]
            have hneg : ((n : Int) - tok.length) < 0 := by omega
            unfold getExpectedKey
            rw [gekGo_neg _ _ _ hneg]
            rfl
          · rw [if_neg hlt]
            have hcast : ((n : Int) - tok.length) = ((n - tok.length : Nat) : Int) := by
              omega
            rw [hcast]
            exact ih (s.drop tok.length) (by omega) (n - tok.length)
      | none =>
        have hdrop : (s.drop 1).length = s.length - 1 := List.length_drop _ _
        have htake : (s.take 1).length = 1 := by
          rw [List.length_take]
          omega
        rw [gek_eq_none h0 hft, spectok_eq_none h0 hft]
        by_cases hn : n = 0
        · subst hn
          simp [tokenAt]
        · rw [if_neg (by exact_mod_cast hn)]
          simp only [tokenAt, if_neg hn, htake]
          rw [if_neg (by omega)]
          have hcast : ((n : Int) - 1) = ((n - 1 : Nat) : Int) := by omega
          rw [hcast]
          exact ih (s.drop 1) (by omega) (n - 1)

theorem gek_tokenAt (s : Str) (n : Nat) :
    getExpectedKey s n = (tokenAt (specTokenize s) n).getD ['?'] :=
  gek_tokenAt_aux s.length s (le_refl _) n

/-! Section: Longest-match lemmas -/

theorem find_longest_aux : ∀ (l : List Str) (s t : Str),
    (l.Pairwise fun a b => a <+: b → b.length ≤ a.length) →
    t ∈ l → t <+: s →
    ∃ u, l.find? (fun v => v.isPrefixOf s) = some u ∧ u <+: s ∧ t.length ≤ u.length := by
  intro l
  induction l with
  | nil =>
    intro s t _ ht _
    exact absurd ht (List.not_mem_nil t)
  | cons a l ih =>
    intro s t hpw ht hts
    by_cases ha : a.isPrefixOf s = true
    · have has : a <+: s := List.isPrefixOf_iff_prefix.mp ha
      refine ⟨a, by simp [List.find?, ha], has, ?_⟩
      rcases List.mem_cons.mp ht with rfl | htl
      · exact le_refl _
      · rcases List.prefix_or_prefix_of_prefix hts has with h1 | h2
        · exact h1.length_le
        · exact (List.pairwise_cons.mp hpw).1 t htl h2
    · have ht2 : t ∈ l := by
        rcases List.mem_cons.mp ht with rfl | htl
        · exact absurd ( List.isPrefixOf_iff_prefix.mpr hts) ha
        · exact htl
      obtain ⟨u, h1, h2, h3⟩ := ih s t (List.pairwise_cons.mp hpw).2 ht2 hts
      refine ⟨u, ?_, h2, h3⟩
      simp [List.find?, ha, h1]

theorem tokens_pairwise :
    tokens.Pairwise fun a b => a <+: b → b.length ≤ a.length := by decide

theorem findTok_longest (s t : Str) (ht : t ∈ tokens) (hts : t <+: s) :
    ∃ u, findTok s = some u ∧ u <+: s ∧ t.length ≤ u.length :=
  find_longest_aux tokens s t tokens_pairwise ht hts

/-! Section: Flat-buffer lemmas -/

theorem flat_append_one (l : List Str) (k : Str) : flat (l ++ [k]) = flat l ++ k := by
  simp [flat]

theorem flat_nil : flat [] = [] := rfl

/-! Section: `addKey` branch equations -/

theorem addKey_inactive (a : App) (k : Str) (t : Nat) (h : a.isActive = false) :
    addKey a k t = a := by
  simp [addKey, h]

theorem addKey_miss_nil (a : App) (k : Str) (t : Nat) (hact : a.isActive = true)
    (hp : ¬ flat (a.inputBuffer ++ [k]) <+: a.currentPattern.pattern)
    (hb : a.inputBuffer = []) : addKey a k t = a := by
  simp only [addKey]
  split_ifs <;> simp_all

theorem addKey_miss (a : App) (k : Str) (t : Nat) (hact : a.isActive = true)
    (hp : ¬ flat (a.inputBuffer ++ [k]) <+: a.currentPattern.pattern)
    (hb : a.inputBuffer ≠ []) :
    addKey a k t =
      { a with
        stats := a.stats.recordMistake a.currentPattern
          ((flat (a.inputBuffer ++ [k])).length - k.length)
          (getExpectedKey a.currentPattern.pattern
            (((flat (a.inputBuffer ++ [k])).length - k.length : Nat) : Int))
          k t,
        resetCount := a.resetCount + 1,
        inputBuffer := [] } := by
  simp only [addKey]
  split_ifs <;> simp_all

theorem addKey_hit_nofinish (a : App) (k : Str) (t : Nat) (hact : a.isActive = true)
    (hp : flat (a.inputBuffer ++ [k]) <+: a.currentPattern.pattern)
    (hlt : (flat (a.inputBuffer ++ [k])).length < a.currentPattern.pattern.length) :
    addKey a k t =
      { a with startTime := if a.startTime = none then some t else a.startTime,
               inputBuffer := a.inputBuffer ++ [k] } := by
  have hnle := Nat.not_le.mpr hlt
  simp only [addKey]
  split_ifs <;> simp_all

theorem addKey_hit_finish (a : App) (k : Str) (t : Nat) (hact : a.isActive = true)
    (hp : flat (a.inputBuffer ++ [k]) <+: a.currentPattern.pattern)
    (hge : a.currentPattern.pattern.length ≤ (flat (a.inputBuffer ++ [k])).length) :
    addKey a k t =
      finishPattern
        { a with startTime := if a.startTime = none then some t else a.startTime,
                 inputBuffer := a.inputBuffer ++ [k] } t := by
  simp only [addKey]
  split_ifs <;> simp_all

/-! Section: `finishPattern` branch equations -/

theorem finishPattern_inactive (a : App) (t : Nat) (h : a.isActive = false) :
    finishPattern a t = a := by
  simp [finishPattern, h]

theorem finishPattern_perfect (a : App) (t : Nat) (hact : a.isActive = true)
    (hr : a.resetCount = 0) :
    finishPattern a t =
      { a with isActive := false,
               sessionTotal := a.sessionTotal + 1,
               stats := a.stats.recordAttempt a.currentPattern
                 (t - a.startTime.getD 0) a.resetCount t,
               sessionPerfect := a.sessionPerfect + 1,
               pendingAdvance := a.pendingAdvance + 1 } := by
  simp [finishPattern, hact, hr]

theorem finishPattern_requeue (a : App) (t : Nat) (hact : a.isActive = true)
    (hr : a.resetCount ≠ 0) :
    finishPattern a t =
      { a with isActive := false,
               sessionTotal := a.sessionTotal + 1,
               stats := a.stats.recordAttempt a.currentPattern
                 (t - a.startTime.getD 0) a.resetCount t,
               patternQueue := a.patternQueue ++ [a.currentPattern],
               pendingAdvance := a.pendingAdvance + 1 } := by
  simp [finishPattern, hact, hr]

/-! Section: `nextPattern` and `step` branch equations -/

theorem nextPattern_notin (a : App) (t : Nat) (h : a.inSession = false) :
    nextPattern a t = a := by
  simp [nextPattern, h]

theorem nextPattern_nil (a : App) (t : Nat) (h : a.inSession = true)
    (hq : a.patternQueue = []) : nextPattern a t = sessionComplete a t := by
  simp [nextPattern, h, hq]

theorem nextPattern_cons (a : App) (t : Nat) (h : a.inSession = true) (p : Pattern)
    (rest : List Pattern) (hq : a.patternQueue = p :: rest) :
    nextPattern a t =
      { a with currentPattern := p, patternQueue := rest, inputBuffer := [],
               resetCount := 0, isActive := true, startTime := none } := by
  simp [nextPattern, h, hq]

theorem step_key (a : App) (k : Str) (t : Nat) : step a (Ev.key k t) = addKey a k t := rfl

theorem step_advance_zero (a : App) (t : Nat) (h : a.pendingAdvance = 0) :
    step a (Ev.advance t) = a := by
  simp [step, h]

theorem step_advance_pos (a : App) (t : Nat) (h : 0 < a.pendingAdvance) :
    step a (Ev.advance t) =
      (if ({ a with pendingAdvance := a.pendingAdvance - 1 } : App).inSession = true
       then nextPattern { a with pendingAdvance := a.pendingAdvance - 1 } t
       else { a with pendingAdvance := a.pendingAdvance - 1 }) := by
  simp [step, h]

theorem step_stop_in (a : App) (t : Nat) (h : a.inSession = true) :
    step a (Ev.stop t) = stopSession a t := by
  simp [step, h]

theorem step_stop_out (a : App) (t : Nat) (h : a.inSession = false) :
    step a (Ev.stop t) = a := by
  simp [step, h]

theorem step_begin_in (a : App) (perm : List Pattern) (t : Nat) (h : a.inSession = true) :
    step a (Ev.begin perm t) = a := by
  simp [step, h]

theorem step_begin_out (a : App) (perm : List Pattern) (t : Nat)
    (h : a.inSession = false) : step a (Ev.begin perm t) = startSession a perm t := by
  simp [step, h]

/-! Section: The character-level buffer invariant (match engine) -/

theorem inv1_finish (a : App) (t : Nat) : Inv1 (finishPattern a t) := by
  by_cases hact : a.isActive = false
  · rw [finishPattern_inactive a t hact]
    intro h
    rw [hact] at h
    cases h
  · rw [Bool.not_eq_false] at hact
    by_cases hr : a.resetCount = 0
    · rw [finishPattern_perfect a t hact hr]
      intro h
      cases h
    · rw [finishPattern_requeue a t hact hr]
      intro h
      cases h

theorem inv1_sessionComplete (a : App) (t : Nat) : Inv1 (sessionComplete a t) := by
  intro h
  cases h

theorem inv1_stopSession (a : App) (t : Nat) : Inv1 (stopSession a t) := by
  intro h
  cases h

theorem inv1_nextPattern (a : App) (t : Nat) (h : Inv1 a) : Inv1 (nextPattern a t) := by
  by_cases hs : a.inSession = false
  · rw [nextPattern_notin a t hs]
    exact h
  · rw [Bool.not_eq_false] at hs
    cases hq : a.patternQueue with
    | nil =>
      rw [nextPattern_nil a t hs hq]
      exact inv1_sessionComplete a t
    | cons p rest =>
      rw [nextPattern_cons a t hs p rest hq]
      intro _
      refine ⟨ List.nil_prefix, fun hne heq => hne ?_⟩
      exact heq.symm

theorem inv1_nextPattern_in (a : App) (t : Nat) (h : a.inSession = true) :
    Inv1 (nextPattern a t) := by
  cases hq : a.patternQueue with
  | nil =>
    rw [nextPattern_nil a t h hq]
    exact inv1_sessionComplete a t
  | cons p rest =>
    rw [nextPattern_cons a t h p rest hq]
    intro _
    exact ⟨ List.nil_prefix, fun hne heq => hne heq.symm⟩

theorem inv1_startSession (a : App) (perm : List Pattern) (t : Nat) :
    Inv1 (startSession a perm t) := by
  unfold startSession
  exact inv1_nextPattern_in _ t rfl

theorem inv1_addKey (a : App) (k : Str) (t : Nat) (h : Inv1 a) : Inv1 (addKey a k t) := by
  by_cases hact : a.isActive = true
  · by_cases hp : flat (a.inputBuffer ++ [k]) <+: a.currentPattern.pattern
    · by_cases hge :
          a.currentPattern.pattern.length ≤ (flat (a.inputBuffer ++ [k])).length
      · rw [addKey_hit_finish a k t hact hp hge]
        exact inv1_finish _ t
      · have hlt := Nat.not_le.mp hge
        rw [addKey_hit_nofinish a k t hact hp hlt]
        intro _
        refine ⟨hp, fun _ heq => ?_⟩
        have hlen : (flat (a.inputBuffer ++ [k])).length =
            a.currentPattern.pattern.length := congrArg List.length heq
        omega
    · by_cases hb : a.inputBuffer = []
      · rw [addKey_miss_nil a k t hact hp hb]
        exact h
      · rw [addKey_miss a k t hact hp hb]
        intro _
        refine ⟨ List.nil_prefix, fun hne heq => hne heq.symm⟩
  · rw [addKey_inactive a k t (Bool.not_eq_true _ ▸ hact)]
    exact h

theorem inv1_step (a : App) (e : Ev) (h : Inv1 a) : Inv1 (step a e) := by
  cases e with
  | key k t => rw [step_key]; exact inv1_addKey a k t h
  | advance t =>
    by_cases hp : 0 < a.pendingAdvance
    · rw [step_advance_pos a t hp]
      by_cases hs : ({ a with pendingAdvance := a.pendingAdvance - 1 } : App).inSession = true
      · rw [if_pos hs]
        apply inv1_nextPattern
        exact h
      · rw [if_neg hs]
        exact h
    · rw [step_advance_zero a t (by omega)]
      exact h
  | stop t =>
    by_cases hs : a.inSession = true
    · rw [step_stop_in a t hs]
      exact inv1_stopSession a t
    · rw [step_stop_out a t (Bool.not_eq_true _ ▸ hs)]
      exact h
  | begin perm t =>
    by_cases hs : a.inSession = true
    · rw [step_begin_in a perm t hs]
      exact h
    · rw [step_begin_out a perm t (Bool.not_eq_true _ ▸ hs)]
      exact inv1_startSession a perm t

theorem inv1_run (a : App) (evs : List Ev) (h : Inv1 a) : Inv1 (run a evs) := by
  induction evs generalizing a with
  | nil => exact h
  | cons e evs ih => exact ih (step a e) (inv1_step a e h)

theorem addKey_rejects (a : App) (k : Str) (t : Nat) (hact : a.isActive = true)
    (hp : ¬ flat (a.inputBuffer ++ [k]) <+: a.currentPattern.pattern) :
    (addKey a k t).inputBuffer = [] ∨ (addKey a k t).inputBuffer = a.inputBuffer := by
  by_cases hb : a.inputBuffer = []
  · rw [addKey_miss_nil a k t hact hp hb]
    exact Or.inr rfl
  · rw [addKey_miss a k t hact hp hb]
    exact Or.inl rfl

/-! Section: Frozen empty-pattern state (implicit-claim lemmas) -/

theorem step_frozen (a : App) (e : Ev) (hact : a.isActive = true)
    (hpat : a.currentPattern.pattern = []) (hbuf : a.inputBuffer = [])
    (hpend : a.pendingAdvance = 0) (he : benignEv e = true) : step a e = a := by
  cases e with
  | key k t =>
    rw [step_key]
    have hk : k ≠ [] := by
      intro hnil
      subst hnil
      simp [benignEv] at he
    apply addKey_miss_nil a k t hact _ hbuf
    rw [hbuf, hpat]
    intro hcon
    have h1 : flat [k] = [] := List.prefix_nil.mp (by simpa using hcon)
    have h2 : k = [] := by simpa [flat] using h1
    exact hk h2
  | advance t => exact step_advance_zero a t hpend
  | stop t => exact Bool.noConfusion he
  | begin perm t => exact Bool.noConfusion he

theorem run_frozen (a : App) (evs : List Ev) (hact : a.isActive = true)
    (hpat : a.currentPattern.pattern = []) (hbuf : a.inputBuffer = [])
    (hpend : a.pendingAdvance = 0) (he : ∀ e ∈ evs, benignEv e = true) : run a evs = a := by
  induction evs with
  | nil => rfl
  | cons e evs ih =>
    have h1 : step a e = a := step_frozen a e hact hpat hbuf hpend (he e (by simp))
    show run (step a e) evs = a
    rw [h1]
    exact ih (fun x hx => he x (by simp [hx]))

/-! Section: The session-completion invariant -/

theorem sessionComplete_isActive (a : App) (t : Nat) :
    (sessionComplete a t).isActive = false := rfl

theorem sessionComplete_inSession (a : App) (t : Nat) :
    (sessionComplete a t).inSession = false := rfl

theorem c4inv_finish (B : AllStats) (A : List Pattern) (a : App) (t : Nat)
    (hact : a.isActive = true) (h : C4Inv B A a) : C4Inv B A (finishPattern a t) := by
  obtain ⟨h1, h2, h3, h4, h5, h6⟩ := h
  obtain ⟨hpend, hsess⟩ := h3 hact
  by_cases hr : a.resetCount = 0
  · rw [finishPattern_perfect a t hact hr]
    refine ⟨h1, ?_, ?_, ?_, ?_, ?_⟩
    · intro k
      exact le_trans (h2 k) (pcKey_recordAttempt_le _ _ _ _ _ _)
    · intro hcon
      simp at hcon
    · show a.pendingAdvance + 1 ≤ 1
      omega
    · intro _ p hp
      rcases h5 hsess p hp with hq | ⟨_, hcur⟩ | hpc
      · exact Or.inl hq
      · refine Or.inr (Or.inr ?_)
        subst hcur
        show pcKey B a.currentPattern.pattern <
          pcKey (a.stats.recordAttempt a.currentPattern
            (t - a.startTime.getD 0) a.resetCount t) a.currentPattern.pattern
        rw [pcKey_recordAttempt, if_pos hr]
        have := h2 a.currentPattern.pattern
        omega
      · exact Or.inr (Or.inr (lt_of_lt_of_le hpc (pcKey_recordAttempt_le _ _ _ _ _ _)))
    · intro hcon
      simp [hsess] at hcon
  · rw [finishPattern_requeue a t hact hr]
    refine ⟨h1, ?_, ?_, ?_, ?_, ?_⟩
    · intro k
      exact le_trans (h2 k) (pcKey_recordAttempt_le _ _ _ _ _ _)
    · intro hcon
      simp at hcon
    · show a.pendingAdvance + 1 ≤ 1
      omega
    · intro _ p hp
      rcases h5 hsess p hp with hq | ⟨_, hcur⟩ | hpc
      · exact Or.inl (List.mem_append_left _ hq)
      · refine Or.inl ?_
        subst hcur
        exact List.mem_append_right _ (by simp)
      · exact Or.inr (Or.inr (lt_of_lt_of_le hpc (pcKey_recordAttempt_le _ _ _ _ _ _)))
    · intro hcon
      simp [hsess] at hcon

theorem c4inv_addKey (B : AllStats) (A : List Pattern) (a : App) (k : Str) (t : Nat)
    (h : C4Inv B A a) : C4Inv B A (addKey a k t) := by
  by_cases hact : a.isActive = true
  · by_cases hp : flat (a.inputBuffer ++ [k]) <+: a.currentPattern.pattern
    · by_cases hge :
          a.currentPattern.pattern.length ≤ (flat (a.inputBuffer ++ [k])).length
      · rw [addKey_hit_finish a k t hact hp hge]
        exact c4inv_finish B A _ t hact h
      · rw [addKey_hit_nofinish a k t hact hp (Nat.not_le.mp hge)]
        exact h
    · by_cases hb : a.inputBuffer = []
      · rw [addKey_miss_nil a k t hact hp hb]
        exact h
      · rw [addKey_miss a k t hact hp hb]
        obtain ⟨h1, h2, h3, h4, h5, h6⟩ := h
        refine ⟨h1, ?_, ?_, h4, ?_, ?_⟩
        · intro key
          show pcKey B key ≤ pcKey (a.stats.recordMistake a.currentPattern _ _ k t) key
          rw [pcKey_recordMistake]
          exact h2 key
        · exact h3
        · intro hs p hpA
          rcases h5 hs p hpA with hq | hcur | hpc
          · exact Or.inl hq
          · exact Or.inr (Or.inl hcur)
          · refine Or.inr (Or.inr ?_)
            show pcKey B p.pattern <
              pcKey (a.stats.recordMistake a.currentPattern _ _ k t) p.pattern
            rw [pcKey_recordMistake]
            exact hpc
        · intro hs p hpA
          show pcKey B p.pattern <
            pcKey (a.stats.recordMistake a.currentPattern _ _ k t) p.pattern
          rw [pcKey_recordMistake]
          exact h6 hs p hpA
  · rw [addKey_inactive a k t (Bool.not_eq_true _ ▸ hact)]
    exact h

theorem step_advance_session (a : App) (t : Nat) (hpos : 0 < a.pendingAdvance)
    (hs : a.inSession = true) :
    step a (Ev.advance t) =
      nextPattern { a with pendingAdvance := a.pendingAdvance - 1 } t := by
  simp [step, hpos, hs]

theorem step_advance_nosession (a : App) (t : Nat) (hpos : 0 < a.pendingAdvance)
    (hs : a.inSession = false) :
    step a (Ev.advance t) = { a with pendingAdvance := a.pendingAdvance - 1 } := by
  simp [step, hpos, hs]

theorem c4inv_next (B : AllStats) (A : List Pattern) (a1 : App) (t : Nat)
    (h1 : a1.allPatterns = A) (h2 : ∀ k, pcKey B k ≤ pcKey a1.stats k)
    (hs : a1.inSession = true) (hpend : a1.pendingAdvance = 0)
    (hdis : ∀ p ∈ A, p ∈ a1.patternQueue ∨ pcKey B p.pattern < pcKey a1.stats p.pattern) :
    C4Inv B A (nextPattern a1 t) := by
  cases hq : a1.patternQueue with
  | nil =>
    rw [nextPattern_nil a1 t hs hq]
    refine ⟨h1, ?_, ?_, ?_, ?_, ?_⟩
    · intro key
      exact h2 key
    · intro hcon
      rw [sessionComplete_isActive] at hcon
      cases hcon
    · show a1.pendingAdvance ≤ 1
      omega
    · intro hcon
      rw [sessionComplete_inSession] at hcon
      cases hcon
    · intro _ p hpA
      rcases hdis p hpA with hqm | hpc
      · rw [hq] at hqm
        cases hqm
      · exact hpc
  | cons p rest =>
    rw [nextPattern_cons a1 t hs p rest hq]
    refine ⟨h1, h2, ?_, ?_, ?_, ?_⟩
    · intro _
      exact ⟨hpend, hs⟩
    · show a1.pendingAdvance ≤ 1
      omega
    · intro _ q hqA
      rcases hdis q hqA with hqm | hpc
      · rw [hq] at hqm
        rcases List.mem_cons.mp hqm with rfl | hrest
        · exact Or.inr (Or.inl ⟨rfl, rfl⟩)
        · exact Or.inl hrest
      · exact Or.inr (Or.inr hpc)
    · intro hcon
      have hcon2 : a1.inSession = false := hcon
      rw [hs] at hcon2
      cases hcon2

theorem c4inv_advance (B : AllStats) (A : List Pattern) (a : App) (t : Nat)
    (h : C4Inv B A a) : C4Inv B A (step a (Ev.advance t)) := by
  by_cases hpos : 0 < a.pendingAdvance
  · obtain ⟨h1, h2, h3, h4, h5, h6⟩ := h
    have hact : a.isActive = false := by
      cases hA : a.isActive
      · rfl
      · obtain ⟨hz, _⟩ := h3 hA
        omega
    by_cases hs : a.inSession = true
    · rw [step_advance_session a t hpos hs]
      refine c4inv_next B A _ t ?_ ?_ ?_ ?_ ?_
      · exact h1
      · exact h2
      · exact hs
      · show a.pendingAdvance - 1 = 0
        omega
      · intro p hpA
        rcases h5 hs p hpA with hqm | ⟨hA, _⟩ | hpc
        · exact Or.inl hqm
        · rw [hact] at hA
          cases hA
        · exact Or.inr hpc
    · have hs2 : a.inSession = false := Bool.not_eq_true _ ▸ hs
      rw [step_advance_nosession a t hpos hs2]
      refine ⟨h1, h2, ?_, ?_, ?_, ?_⟩
      · intro hA
        have hA2 : a.isActive = true := hA
        rw [hact] at hA2
        cases hA2
      · show a.pendingAdvance - 1 ≤ 1
        omega
      · intro hcon
        have hcon2 : a.inSession = true := hcon
        exact absurd hcon2 hs
      · intro _ p hpA
        exact h6 hs2 p hpA
  · rw [step_advance_zero a t (by omega)]
    exact h

theorem c4inv_step (B : AllStats) (A : List Pattern) (a : App) (e : Ev)
    (he : quietEv e = true) (h : C4Inv B A a) : C4Inv B A (step a e) := by
  cases e with
  | key k t =>
    rw [step_key]
    exact c4inv_addKey B A a k t h
  | advance t => exact c4inv_advance B A a t h
  | stop t => exact Bool.noConfusion he
  | begin perm t => exact Bool.noConfusion he

theorem c4inv_run (B : AllStats) (A : List Pattern) (a : App) (evs : List Ev)
    (he : ∀ e ∈ evs, quietEv e = true) (h : C4Inv B A a) : C4Inv B A (run a evs) := by
  induction evs generalizing a with
  | nil => exact h
  | cons e evs ih =>
    exact ih (step a e) (fun x hx => he x (by simp [hx]))
      (c4inv_step B A a e (he e (by simp)) h)

theorem c4inv_begin (a : App) (perm : List Pattern) (t : Nat)
    (hpend : a.pendingAdvance = 0)
    (hperm : ∀ p ∈ a.allPatterns, p ∈ perm) :
    C4Inv a.stats a.allPatterns (startSession a perm t) := by
  unfold startSession
  refine c4inv_next a.stats a.allPatterns _ t ?_ ?_ ?_ ?_ ?_
  · rfl
  · intro k
    exact le_refl _
  · rfl
  · exact hpend
  · intro p hp
    exact Or.inl (hperm p hp)

theorem c4_complete (a : App) (perm : List Pattern) (t : Nat) (evs : List Ev)
    (hpend : a.pendingAdvance = 0)
    (hperm : perm.Perm a.allPatterns) (hqe : ∀ e ∈ evs, quietEv e = true)
    (hend : (run (startSession a perm t) evs).inSession = false) :
    ∀ p ∈ a.allPatterns,
      pcKey a.stats p.pattern < pcKey (run (startSession a perm t) evs).stats p.pattern := by
  have hinv := c4inv_run a.stats a.allPatterns (startSession a perm t) evs hqe
    (c4inv_begin a perm t hpend (fun p hp => hperm.mem_iff.mpr hp))
  have hall : (run (startSession a perm t) evs).allPatterns = a.allPatterns := hinv.1
  exact hinv.2.2.2.2.2 hend

/-! Section: New-best display and best-time fold lemmas -/

theorem recordAttempt_lookup (s : AllStats) (p : Pattern) (e r t : Nat) :
    lookupPS (s.recordAttempt p e r t).patternStats p.pattern =
      some (recordAttemptPS (s.getPatternStats p) e r t) := by
  simp only [AllStats.recordAttempt]
  exact lookup_setPS_self _ _ _

theorem finishShowsNewBest_iff (s : AllStats) (p : Pattern) (e r t : Nat) :
    (finishShowsNewBest s p e r t = true) ↔
      e = bestKey (s.recordAttempt p e r t) p.pattern := by
  simp only [finishShowsNewBest]
  rw [recordAttempt_lookup]
  simp only [decide_eq_true_eq]
  unfold bestKey
  rw [recordAttempt_lookup]

theorem applyAttempts_nil (s : AllStats) (p : Pattern) : applyAttempts s p [] = s := rfl

theorem applyAttempts_cons (s : AllStats) (p : Pattern) (x : Nat × Nat × Nat)
    (l : List (Nat × Nat × Nat)) :
    applyAttempts s p (x :: l) = applyAttempts (s.recordAttempt p x.1 x.2.1 x.2.2) p l :=
  rfl

theorem bestKey_applyAttempts_le : ∀ (l : List (Nat × Nat × Nat)) (s : AllStats)
    (p : Pattern), (∀ x ∈ l, 0 < x.1) → bestKey s p.pattern ≠ 0 →
    bestKey (applyAttempts s p l) p.pattern ≤ bestKey s p.pattern ∧
    bestKey (applyAttempts s p l) p.pattern ≠ 0 := by
  intro l
  induction l with
  | nil =>
    intro s p _ h0
    exact ⟨le_refl _, h0⟩
  | cons x l ih =>
    intro s p hpos h0
    rw [applyAttempts_cons]
    have hx : 0 < x.1 := hpos x (by simp)
    have hone : bestKey (s.recordAttempt p x.1 x.2.1 x.2.2) p.pattern ≤
        bestKey s p.pattern ∧
        bestKey (s.recordAttempt p x.1 x.2.1 x.2.2) p.pattern ≠ 0 := by
      rw [bestKey_recordAttempt]
      split_ifs with hc
      · rcases hc.2 with hz | hlt
        · exact absurd hz h0
        · exact ⟨hlt.le, by omega⟩
      · exact ⟨le_refl _, h0⟩
    obtain ⟨ih1, ih2⟩ := ih (s.recordAttempt p x.1 x.2.1 x.2.2) p
      (fun y hy => hpos y (by simp [hy])) hone.2
    exact ⟨le_trans ih1 hone.1, ih2⟩

/-! Section: Claim theorems -/

/-- C1 counterexample: the claim as stated fails on the code.  In the
reachable state `sSLC` (pattern `SLC` active, single character `S` typed
and accepted) the typed-so-far buffer `[S]` is not a prefix of the
pattern's token sequence `[SLC]`; and in the reachable state `sEmptyPat`
(empty-string pattern active) the buffer equals the whole pattern, so it
is not a strict prefix while the pattern is active. -/
theorem c1_counterexample :
    (sSLC.isActive = true ∧ sSLC.inputBuffer = [['S']] ∧
      ¬ (sSLC.inputBuffer <+: specTokenize sSLC.currentPattern.pattern)) ∧
    (sEmptyPat.isActive = true ∧
      flat sEmptyPat.inputBuffer = sEmptyPat.currentPattern.pattern) := by
  constructor
  · exact ⟨by decide, by decide, by decide⟩
  · exact ⟨by decide, by decide⟩

/-- C1 (amended): at every reachable state of a session the flat
character string of the typed-so-far buffer is a prefix of the active
pattern's string, and a proper prefix while the pattern is active and
nonempty; the invariant holds at session start, is preserved by every
event, and any submitted token whose acceptance would violate it is
rejected (the buffer is cleared or left unchanged, never extended). -/
theorem c1_theorem :
    (∀ (a : App) (e : Ev), Inv1 a → Inv1 (step a e)) ∧
    (∀ (a : App) (perm : List Pattern) (t : Nat), Inv1 (startSession a perm t)) ∧
    (∀ (a : App) (k : Str) (t : Nat), a.isActive = true →
      ¬ flat (a.inputBuffer ++ [k]) <+: a.currentPattern.pattern →
      (addKey a k t).inputBuffer = [] ∨ (addKey a k t).inputBuffer = a.inputBuffer) :=
  ⟨fun a e h => inv1_step a e h, fun a perm t => inv1_startSession a perm t,
    fun a k t hact hp => addKey_rejects a k t hact hp⟩

/-- C1 witness: the preservation part applied at the concrete state
`s0c2` and the event submitting `1`. -/
theorem c1_witness : Inv1 (step s0c2 (Ev.key ['1'] 6)) :=
  c1_theorem.1 s0c2 (Ev.key ['1'] 6) (by unfold Inv1; decide)

/-- C2: on a mismatching token with empty buffer the input is silently
ignored (no state change); with nonempty buffer a reset occurs: a mistake
with position `len(candidate) - len(key)`, expected token from the
scanner's offset lookup and actual `t` is recorded, the reset counter is
incremented, the buffer is cleared, and the start timestamp is kept.  In
particular for pattern `1aLC` and inputs `1`, `a`, `RC` the third input
records the mistake `(2, LC, RC)` and the reset count becomes 1. -/
theorem c2_theorem :
    (∀ (a : App) (k : Str) (t : Nat), a.isActive = true →
      ¬ flat (a.inputBuffer ++ [k]) <+: a.currentPattern.pattern →
      a.inputBuffer = [] → addKey a k t = a) ∧
    (∀ (a : App) (k : Str) (t : Nat), a.isActive = true →
      ¬ flat (a.inputBuffer ++ [k]) <+: a.currentPattern.pattern →
      a.inputBuffer ≠ [] →
      (addKey a k t).resetCount = a.resetCount + 1 ∧
      (addKey a k t).inputBuffer = [] ∧
      (addKey a k t).startTime = a.startTime ∧
      (addKey a k t).stats = a.stats.recordMistake a.currentPattern
        ((flat (a.inputBuffer ++ [k])).length - k.length)
        (getExpectedKey a.currentPattern.pattern
          (((flat (a.inputBuffer ++ [k])).length - k.length : Nat) : Int)) k t) ∧
    (s3c2.resetCount = 1 ∧ s3c2.inputBuffer = [] ∧ s3c2.startTime = some 6 ∧
      mistakesKey s3c2.stats P14.pattern = [⟨2, ['L','C'], ['R','C'], 8⟩] ∧
      getExpectedKey P14.pattern 2 = ['L','C']) := by
  refine ⟨fun a k t hact hp hb => addKey_miss_nil a k t hact hp hb, ?_, by decide⟩
  intro a k t hact hp hb
  rw [addKey_miss a k t hact hp hb]
  exact ⟨rfl, rfl, rfl, rfl⟩

/-- C2 witness: the reset branch applied at the concrete state reached
after typing `1` and `a` against `1aLC`, submitting `RC`. -/
theorem c2_witness :
    (addKey (run s0c2 [Ev.key ['1'] 6, Ev.key ['a'] 7]) ['R','C'] 8).resetCount =
      (run s0c2 [Ev.key ['1'] 6, Ev.key ['a'] 7]).resetCount + 1 ∧
    (addKey (run s0c2 [Ev.key ['1'] 6, Ev.key ['a'] 7]) ['R','C'] 8).inputBuffer = [] ∧
    (addKey (run s0c2 [Ev.key ['1'] 6, Ev.key ['a'] 7]) ['R','C'] 8).startTime =
      (run s0c2 [Ev.key ['1'] 6, Ev.key ['a'] 7]).startTime ∧
    (addKey (run s0c2 [Ev.key ['1'] 6, Ev.key ['a'] 7]) ['R','C'] 8).stats =
      (run s0c2 [Ev.key ['1'] 6, Ev.key ['a'] 7]).stats.recordMistake
        (run s0c2 [Ev.key ['1'] 6, Ev.key ['a'] 7]).currentPattern
        ((flat ((run s0c2 [Ev.key ['1'] 6, Ev.key ['a'] 7]).inputBuffer ++
          [['R','C']])).length - (['R','C'] : Str).length)
        (getExpectedKey (run s0c2 [Ev.key ['1'] 6, Ev.key ['a'] 7]).currentPattern.pattern
          (((flat ((run s0c2 [Ev.key ['1'] 6, Ev.key ['a'] 7]).inputBuffer ++
            [['R','C']])).length - (['R','C'] : Str).length : Nat) : Int))
        ['R','C'] 8 :=
  c2_theorem.2.1 (run s0c2 [Ev.key ['1'] 6, Ev.key ['a'] 7]) ['R','C'] 8
    (by decide) (by decide) (by decide)

/-- C3 counterexample: in the `1aLC` scenario the recorded mistake has
position 2, but the length of the candidate (the flat string `1aRC` of
the buffer with the rejected token appended) minus 1 is 3. -/
theorem c3_counterexample :
    mistakesKey s3c2.stats P14.pattern = [⟨2, ['L','C'], ['R','C'], 8⟩] ∧
    (flat ([['1'], ['a']] ++ [['R','C']])).length - 1 = 3 ∧ (2 : Nat) ≠ 3 := by
  exact ⟨by decide, by decide, by decide⟩

/-- C3 (amended): on every reset the recorded mistake position equals the
length of the candidate minus the length of the rejected token `t`, that
is, the flat character length of the buffer before `t` was appended (it
equals length of candidate minus 1 only when `t` is a single character). -/
theorem c3_theorem :
    ∀ (a : App) (k : Str) (t : Nat), a.isActive = true →
      ¬ flat (a.inputBuffer ++ [k]) <+: a.currentPattern.pattern →
      a.inputBuffer ≠ [] →
      ∃ pre, mistakesKey (addKey a k t).stats a.currentPattern.pattern =
        pre ++ [⟨(flat a.inputBuffer).length,
          getExpectedKey a.currentPattern.pattern
            (((flat a.inputBuffer).length : Nat) : Int), k, t⟩] := by
  intro a k t hact hp hb
  rw [addKey_miss a k t hact hp hb]
  have hlen : (flat (a.inputBuffer ++ [k])).length - k.length =
      (flat a.inputBuffer).length := by
    rw [flat_append_one, List.length_append]
    omega
  show ∃ pre, mistakesKey (a.stats.recordMistake a.currentPattern
    ((flat (a.inputBuffer ++ [k])).length - k.length) _ k t) a.currentPattern.pattern = _
  rw [hlen]
  exact mistakesKey_recordMistake a.stats a.currentPattern _ _ k t

/-- C3 witness: the amended position law applied at the `1aLC` scenario
state before the `RC` reset. -/
theorem c3_witness :
    ∃ pre, mistakesKey (addKey (run s0c2 [Ev.key ['1'] 6, Ev.key ['a'] 7])
        ['R','C'] 8).stats
        (run s0c2 [Ev.key ['1'] 6, Ev.key ['a'] 7]).currentPattern.pattern =
      pre ++ [⟨(flat (run s0c2 [Ev.key ['1'] 6, Ev.key ['a'] 7]).inputBuffer).length,
        getExpectedKey
          (run s0c2 [Ev.key ['1'] 6, Ev.key ['a'] 7]).currentPattern.pattern
          (((flat (run s0c2 [Ev.key ['1'] 6, Ev.key ['a'] 7]).inputBuffer).length :
            Nat) : Int), ['R','C'], 8⟩] :=
  c3_theorem (run s0c2 [Ev.key ['1'] 6, Ev.key ['a'] 7]) ['R','C'] 8
    (by decide) (by decide) (by decide)

/-- C4 counterexample: a deferred advance left pending by a stopped
session fires into the next session and skips a pattern, so that session
ends as Completed although pattern `PQ` was never completed (it has no
stored statistics row at all, hence zero perfect completions). -/
theorem c4_counterexample :
    (fc4.stats.sessions.map SessionRecord.completed) = [false, true] ∧
    PQ ∈ s0c4.allPatterns ∧
    pcKey fc4.stats PQ.pattern = 0 ∧
    lookupPS fc4.stats.patternStats PQ.pattern = none := by
  exact ⟨by decide, by decide, by decide, by decide⟩

/-- C4 (amended): a session ends as Completed only when the working queue
is empty (draining a nonempty queue neither ends the session nor appends
a session record, an empty queue appends a record with `completed =
true`); every completion increments `sessionTotal`; a zero-reset
completion increments `sessionPerfect` and leaves the queue unchanged
while a completion with resets appends the pattern to the queue's tail;
the stored perfect count grows exactly on zero-reset completions; and,
provided no deferred advance left over from a previously stopped session
fires during the session (trace of key and advance events only, no
pending advance at start), a session that ends did so only after every
loaded pattern was completed with zero resets at least once (each
pattern's stored perfect count strictly grew during the session). -/
theorem c4_theorem :
    (∀ (a : App) (t : Nat), a.inSession = true → a.patternQueue ≠ [] →
      (nextPattern a t).stats.sessions = a.stats.sessions ∧
      (nextPattern a t).inSession = true) ∧
    (∀ (a : App) (t : Nat), a.inSession = true → a.patternQueue = [] →
      (nextPattern a t).stats.sessions = a.stats.sessions ++
        [⟨a.sessionStart, t, t - a.sessionStart, a.sessionTotal, a.sessionPerfect,
          true⟩]) ∧
    (∀ (a : App) (t : Nat), a.isActive = true →
      (finishPattern a t).sessionTotal = a.sessionTotal + 1) ∧
    (∀ (a : App) (t : Nat), a.isActive = true → a.resetCount = 0 →
      (finishPattern a t).sessionPerfect = a.sessionPerfect + 1 ∧
      (finishPattern a t).patternQueue = a.patternQueue) ∧
    (∀ (a : App) (t : Nat), a.isActive = true → a.resetCount ≠ 0 →
      (finishPattern a t).sessionPerfect = a.sessionPerfect ∧
      (finishPattern a t).patternQueue = a.patternQueue ++ [a.currentPattern]) ∧
    (∀ (s : AllStats) (p : Pattern) (e r t : Nat),
      pcKey (s.recordAttempt p e r t) p.pattern =
        if r = 0 then pcKey s p.pattern + 1 else pcKey s p.pattern) ∧
    (∀ (a : App) (perm : List Pattern) (t : Nat) (evs : List Ev),
      a.inSession = false → a.pendingAdvance = 0 → perm.Perm a.allPatterns →
      (∀ e ∈ evs, quietEv e = true) →
      (run (step a (Ev.begin perm t)) evs).inSession = false →
      ∀ p ∈ a.allPatterns,
        pcKey a.stats p.pattern <
          pcKey (run (step a (Ev.begin perm t)) evs).stats p.pattern) := by
  refine ⟨?_, ?_, ?_, ?_, ?_, pcKey_recordAttempt, ?_⟩
  · intro a t hs hq
    cases hqc : a.patternQueue with
    | nil => exact absurd hqc hq
    | cons p rest =>
      rw [nextPattern_cons a t hs p rest hqc]
      exact ⟨rfl, hs⟩
  · intro a t hs hq
    rw [nextPattern_nil a t hs hq]
    rfl
  · intro a t hact
    by_cases hr : a.resetCount = 0
    · rw [finishPattern_perfect a t hact hr]
    · rw [finishPattern_requeue a t hact hr]
  · intro a t hact hr
    rw [finishPattern_perfect a t hact hr]
    exact ⟨rfl, rfl⟩
  · intro a t hact hr
    rw [finishPattern_requeue a t hact hr]
    exact ⟨rfl, rfl⟩
  · intro a perm t evs hns hpend hperm hqe hend
    rw [step_begin_out a perm t hns] at hend ⊢
    exact c4_complete a perm t evs hpend hperm hqe hend

/-- C4 witness: a clean one-pattern session (begin, type `b`, advance)
ends with the pattern's perfect count strictly increased. -/
theorem c4_witness :
    pcKey (mkApp [PB]).stats PB.pattern <
      pcKey (run (step (mkApp [PB]) (Ev.begin [PB] 0))
        [Ev.key ['b'] 1, Ev.advance 2]).stats PB.pattern :=
  c4_theorem.2.2.2.2.2.2 (mkApp [PB]) [PB] 0 [Ev.key ['b'] 1, Ev.advance 2]
    (by decide) (by decide) (List.Perm.refl _) (by decide) (by decide) PB (by decide)

/-- C5 counterexample: with a stored best of 5, a perfect completion with
elapsed time exactly 5 is flagged as a new best, although a prior best
existed and 5 is not strictly lower than it. -/
theorem c5_counterexample :
    bestKey (applyAttempts emptyStats PB [(5, 0, 0)]) PB.pattern = 5 ∧
    finishShowsNewBest (applyAttempts emptyStats PB [(5, 0, 0)]) PB 5 0 1 = true ∧
    ¬ (bestKey (applyAttempts emptyStats PB [(5, 0, 0)]) PB.pattern = 0 ∨
        5 < bestKey (applyAttempts emptyStats PB [(5, 0, 0)]) PB.pattern) := by
  exact ⟨by decide, by decide, by decide⟩

/-- C5 (amended): after a perfect completion is recorded the "new best"
indication compares the elapsed time for exact equality against the best
stored after the update, and therefore reports "new best" exactly when no
prior best existed or the elapsed time is lower than **or equal to** the
prior best; only a time strictly less than the prior best lowers the
stored record. -/
theorem c5_theorem :
    ∀ (s : AllStats) (p : Pattern) (e t : Nat),
      (finishShowsNewBest s p e 0 t = true ↔
        (bestKey s p.pattern = 0 ∨ e ≤ bestKey s p.pattern)) ∧
      (bestKey s p.pattern ≠ 0 →
        (bestKey (s.recordAttempt p e 0 t) p.pattern < bestKey s p.pattern ↔
          e < bestKey s p.pattern)) ∧
      (e = bestKey (s.recordAttempt p e 0 t) p.pattern ↔
        finishShowsNewBest s p e 0 t = true) := by
  intro s p e t
  refine ⟨?_, ?_, (finishShowsNewBest_iff s p e 0 t).symm⟩
  · rw [finishShowsNewBest_iff, bestKey_recordAttempt]
    split_ifs with hc <;> constructor <;> intro h2 <;> omega
  · intro hb
    rw [bestKey_recordAttempt]
    split_ifs with hc <;> constructor <;> intro h2 <;> omega

/-- C5 witness: the strict-lowering law applied with stored best 5 and a
new elapsed time 3. -/
theorem c5_witness :
    bestKey ((applyAttempts emptyStats PB [(5, 0, 0)]).recordAttempt PB 3 0 9)
        PB.pattern <
      bestKey (applyAttempts emptyStats PB [(5, 0, 0)]) PB.pattern ↔
    3 < bestKey (applyAttempts emptyStats PB [(5, 0, 0)]) PB.pattern :=
  ((c5_theorem (applyAttempts emptyStats PB [(5, 0, 0)]) PB 3 9).2.1 (by decide))

/-- C6 counterexample: an attempt recorded with elapsed time 0 resets the
stored best to the absent sentinel, after which a later, slower perfect
attempt raises the stored best: across the attempt sequence
`[(5,0),(0,0),(7,0)]` the stored best goes from 5 to 7. -/
theorem c6_counterexample :
    bestKey (applyAttempts emptyStats PB [(5, 0, 0)]) PB.pattern = 5 ∧
    bestKey (applyAttempts emptyStats PB [(5, 0, 0), (0, 0, 1), (7, 0, 2)])
      PB.pattern = 7 ∧ (5 : Nat) < 7 := by
  exact ⟨by decide, by decide, by decide⟩

/-- C6 (amended): `recordAttempt` updates the stored best exactly when
the attempt is perfect and either no best is stored (the zero sentinel)
or the elapsed time is strictly smaller; consequently, across any
sequence of attempts whose elapsed times are positive, the stored best
never increases once set.  (An attempt with elapsed time 0 stores the
sentinel itself, un-setting the best — the source of the counterexample.) -/
theorem c6_theorem :
    (∀ (s : AllStats) (p : Pattern) (e r t : Nat),
      bestKey (s.recordAttempt p e r t) p.pattern =
        if r = 0 ∧ (bestKey s p.pattern = 0 ∨ e < bestKey s p.pattern) then e
        else bestKey s p.pattern) ∧
    (∀ (s : AllStats) (p : Pattern) (l : List (Nat × Nat × Nat)),
      (∀ x ∈ l, 0 < x.1) → bestKey s p.pattern ≠ 0 →
      bestKey (applyAttempts s p l) p.pattern ≤ bestKey s p.pattern) :=
  ⟨bestKey_recordAttempt,
    fun s p l h1 h2 => (bestKey_applyAttempts_le l s p h1 h2).1⟩

/-- C6 witness: the non-increase law applied with stored best 5 and one
further positive attempt. -/
theorem c6_witness :
    bestKey (applyAttempts (applyAttempts emptyStats PB [(5, 0, 0)]) PB [(3, 0, 1)])
        PB.pattern ≤
      bestKey (applyAttempts emptyStats PB [(5, 0, 0)]) PB.pattern :=
  c6_theorem.2 (applyAttempts emptyStats PB [(5, 0, 0)]) PB [(3, 0, 1)]
    (by decide) (by decide)

/-- C7: a zero-reset attempt increments the current streak and raises the
best streak to their maximum; an attempt with resets zeroes the current
streak and leaves the best streak unchanged; the best streak never
decreases; and the attempt sequence with reset counts `[0,0,1,0]`
produces current-streak values `[1,2,0,1]` with best streak 2. -/
theorem c7_theorem :
    (∀ (s : AllStats) (p : Pattern) (e t : Nat),
      csKey (s.recordAttempt p e 0 t) p.pattern = csKey s p.pattern + 1 ∧
      bsKey (s.recordAttempt p e 0 t) p.pattern =
        max (bsKey s p.pattern) (csKey s p.pattern + 1)) ∧
    (∀ (s : AllStats) (p : Pattern) (e r t : Nat), 0 < r →
      csKey (s.recordAttempt p e r t) p.pattern = 0 ∧
      bsKey (s.recordAttempt p e r t) p.pattern = bsKey s p.pattern) ∧
    (∀ (s : AllStats) (p : Pattern) (e r t : Nat),
      bsKey s p.pattern ≤ bsKey (s.recordAttempt p e r t) p.pattern) ∧
    (csKey (applyAttempts emptyStats PB [(5, 0, 0)]) PB.pattern = 1 ∧
      csKey (applyAttempts emptyStats PB [(5, 0, 0), (5, 0, 1)]) PB.pattern = 2 ∧
      csKey (applyAttempts emptyStats PB [(5, 0, 0), (5, 0, 1), (5, 1, 2)])
        PB.pattern = 0 ∧
      csKey (applyAttempts emptyStats PB
        [(5, 0, 0), (5, 0, 1), (5, 1, 2), (5, 0, 3)]) PB.pattern = 1 ∧
      bsKey (applyAttempts emptyStats PB
        [(5, 0, 0), (5, 0, 1), (5, 1, 2), (5, 0, 3)]) PB.pattern = 2) := by
  refine ⟨?_, ?_, ?_, by decide⟩
  · intro s p e t
    rw [csKey_recordAttempt, bsKey_recordAttempt]
    exact ⟨by simp, by simp⟩
  · intro s p e r t hr
    rw [csKey_recordAttempt, bsKey_recordAttempt]
    constructor
    · rw [if_neg (by omega)]
    · rw [if_neg (by omega)]
  · intro s p e r t
    rw [bsKey_recordAttempt]
    split_ifs
    · exact le_max_left _ _
    · exact le_refl _

/-- C7 witness: the reset branch applied with one reset on fresh
statistics. -/
theorem c7_witness :
    csKey (emptyStats.recordAttempt PB 5 1 0) PB.pattern = 0 ∧
    bsKey (emptyStats.recordAttempt PB 5 1 0) PB.pattern = bsKey emptyStats PB.pattern :=
  c7_theorem.2.1 emptyStats PB 5 1 0 (by decide)

/-- C8 counterexample: offset 1 of the pattern `SLC` is inside the string
and occupied by the single token `SLC`, yet the offset lookup returns the
sentinel `?` instead of the occupying token. -/
theorem c8_counterexample :
    specTokenize ['S','L','C'] = [['S','L','C']] ∧
    getExpectedKey ['S','L','C'] 1 = ['?'] ∧ (['?'] : Str) ≠ ['S','L','C'] := by
  exact ⟨by decide, by decide, by decide⟩

/-- C8 (amended): the offset lookup is total and never fails: for every
offset at which a token of the tokenization starts it returns that token,
and for every other offset — one strictly inside a token or one outside
the string — it returns the sentinel `?`. -/
theorem c8_theorem : ∀ (s : Str) (n : Nat),
    getExpectedKey s n = (tokenAt (specTokenize s) n).getD ['?'] :=
  fun s n => gek_tokenAt s n

/-- C9: token identification is longest-match-first: whenever a token of
the table is a prefix of the remaining input, the scanner returns a
matching token at least as long, and in particular position 0 of `SLC`
yields the 3-character shift-left-click token, never the click token
`LC`. -/
theorem c9_theorem :
    (∀ (s t : Str), t ∈ tokens → t <+: s →
      ∃ u, findTok s = some u ∧ u <+: s ∧ t.length ≤ u.length) ∧
    getExpectedKey ['S','L','C'] 0 = ['S','L','C'] ∧
    specTokenize ['S','L','C'] = [['S','L','C']] ∧
    getExpectedKey ['S','L','C'] 0 ≠ ['L','C'] :=
  ⟨fun s t ht hts => findTok_longest s t ht hts, by decide, by decide, by decide⟩

/-- C9 witness: the longest-match law applied to `F1`, a prefix of the
input `F10`: the scanner returns a token of length at least 2. -/
theorem c9_witness :
    ∃ u, findTok ['F','1','0'] = some u ∧ u <+: ['F','1','0'] ∧
      (['F','1'] : Str).length ≤ u.length :=
  c9_theorem.1 ['F','1','0'] ['F','1'] (by decide) (by decide)

/-- C10 counterexample: the claim's final conjunct fails on the code.  In
the reachable state `sMid` the empty pattern is active with the queue
empty and a stale deferred advance (left over from the previous,
stopped session's completion timer) still pending; when that advance
fires, `nextPattern` finds the empty queue and ends the session as
Completed — a `completed = true` session record is appended — while the
empty pattern is active. -/
theorem c10_counterexample :
    sMid.isActive = true ∧ sMid.currentPattern.pattern = [] ∧
    sMid.inputBuffer = [] ∧ sMid.inSession = true ∧ 0 < sMid.pendingAdvance ∧
    (step sMid (Ev.advance 6)).inSession = false ∧
    ((step sMid (Ev.advance 6)).stats.sessions.map SessionRecord.completed) =
      [false, true] := by
  exact ⟨by decide, by decide, by decide, by decide, by decide, by decide, by decide⟩

/-- C10 (amended): a pattern-file line of the form `Name|` loads a
pattern with the empty token string, and with such a pattern active every
nonempty submitted token (and every deferred-advance firing) leaves the
state literally unchanged — the buffer stays empty, no mistake or reset
is ever recorded, the pattern never completes, and the session cannot end
by completion while it is active — provided no deferred advance left over
from an earlier pattern completion is still pending when the pattern is
loaded (a stale pending advance can fire, drain the empty queue, and end
the session as Completed while the pattern is active). -/
theorem c10_theorem :
    (∀ (a : App) (evs : List Ev), a.isActive = true →
      a.currentPattern.pattern = [] → a.inputBuffer = [] → a.pendingAdvance = 0 →
      (∀ e ∈ evs, benignEv e = true) → run a evs = a) ∧
    parseLine ['N','a','m','e','|'] = some ⟨['N','a','m','e'], []⟩ :=
  ⟨fun a evs hact hpat hbuf hpend he => run_frozen a evs hact hpat hbuf hpend he,
    by decide⟩

/-- C10 witness: the frozen-state law applied at the reachable
empty-pattern state with a stray `x` keystroke and an advance firing. -/
theorem c10_witness : run sEmptyPat [Ev.key ['x'] 1, Ev.advance 2] = sEmptyPat :=
  c10_theorem.1 sEmptyPat [Ev.key ['x'] 1, Ev.advance 2]
    (by decide) (by decide) (by decide) (by decide) (by decide)

end Hotkey
